import Mathlib

/-!
Verification of the sliding-window dataset builder and train/evaluate loop of
examples/forecasting/load_forecasting.py, shallowly embedded in Lean 4.

The time series is modelled as a list of scalars; Python slices df[a:b] with
natural bounds are modelled as (df.drop a).take (b - a); the PyTorch DataLoader
with shuffle disabled and default drop_last is modelled as sequential chunking;
model tensors are modelled as (nested) lists over an arbitrary scalar type, and
the floating-point arithmetic of the validation metric is modelled exactly over
the rationals.
-/

namespace LoadForecasting

/-- Embedding of create_dataset (load_forecasting.py, lines 76-90):
X, y start empty; for i in range(len(df) - lookback), the slice
df[i : i+lookback] is appended to X and df[i+1 : i+lookback+1] to y. -/
def create_dataset {α : Type} (df : List α) (lookback : Nat) :
    List (List α) × List (List α) :=
  (List.range (df.length - lookback)).foldl
    (fun acc i =>
      (acc.1 ++ [(df.drop i).take lookback], acc.2 ++ [(df.drop (i + 1)).take lookback]))
    ([], [])

/-- Folding append-singleton steps over a list accumulates the two maps. -/
theorem foldl_append_pair {α β : Type} (f g : α → β) (l : List α)
    (a b : List β) :
    l.foldl (fun acc i => (acc.1 ++ [f i], acc.2 ++ [g i])) (a, b)
      = (a ++ l.map f, b ++ l.map g) := by
  induction l generalizing a b with
  | nil => simp
  | cons x xs ih => simp [ih]

/-- The loop-and-append builder is the pair of maps over the index range. -/
theorem create_dataset_eq_map {α : Type} (df : List α) (lookback : Nat) :
    create_dataset df lookback
      = ((List.range (df.length - lookback)).map
            (fun i => (df.drop i).take lookback),
         (List.range (df.length - lookback)).map
            (fun i => (df.drop (i + 1)).take lookback)) := by
  unfold create_dataset
  rw [foldl_append_pair]
  simp

theorem create_dataset_fst_length {α : Type} (df : List α) (lookback : Nat) :
    (create_dataset df lookback).1.length = df.length - lookback := by
  rw [create_dataset_eq_map]; simp

theorem create_dataset_snd_length {α : Type} (df : List α) (lookback : Nat) :
    (create_dataset df lookback).2.length = df.length - lookback := by
  rw [create_dataset_eq_map]; simp

/-- Sample i of the feature list is the slice df[i : i+lookback]. -/
theorem create_dataset_fst_getD {α : Type} (S : List α) (L i : Nat)
    (hi : i < S.length - L) :
    (create_dataset S L).1.getD i [] = (S.drop i).take L := by
  rw [create_dataset_eq_map, List.getD_eq_getElem?_getD]
  simp [hi]

/-- Sample i of the target list is the slice df[i+1 : i+lookback+1]. -/
theorem create_dataset_snd_getD {α : Type} (S : List α) (L i : Nat)
    (hi : i < S.length - L) :
    (create_dataset S L).2.getD i [] = (S.drop (i + 1)).take L := by
  rw [create_dataset_eq_map, List.getD_eq_getElem?_getD]
  simp [hi]

/-- Element k of the window starting at i is element i+k of the series. -/
theorem window_getD {α : Type} (S : List α) (L i k : Nat) (hk : k < L) (d : α) :
    ((S.drop i).take L).getD k d = S.getD (i + k) d := by
  rw [List.getD_eq_getElem?_getD, List.getD_eq_getElem?_getD, List.getElem?_take]
  simp [hk, List.getElem?_drop]

/-- When lookback is at least the series length the index range is empty and
both output lists are empty. -/
theorem create_dataset_empty_of_le {α : Type} (S : List α) (L : Nat)
    (h : S.length ≤ L) : create_dataset S L = ([], []) := by
  rw [create_dataset_eq_map]
  simp [Nat.sub_eq_zero_of_le h]

/-- C1: for 1 ≤ L < N, create_dataset produces exactly N−L sample pairs;
every history and target has length L, history[k] = S[i+k] and
target[k] = S[i+1+k]. -/
theorem create_dataset_window_spec {α : Type} (S : List α) (L : Nat)
    (h1 : 1 ≤ L) (h2 : L < S.length) :
    (create_dataset S L).1.length = S.length - L ∧
    (create_dataset S L).2.length = S.length - L ∧
    ∀ i, i < S.length - L →
      ((create_dataset S L).1.getD i []).length = L ∧
      ((create_dataset S L).2.getD i []).length = L ∧
      ∀ k, k < L → ∀ d : α,
        ((create_dataset S L).1.getD i []).getD k d = S.getD (i + k) d ∧
        ((create_dataset S L).2.getD i []).getD k d = S.getD (i + 1 + k) d := by
  refine ⟨create_dataset_fst_length S L, create_dataset_snd_length S L, ?_⟩
  intro i hi
  have hiN : i + L < S.length := by omega
  rw [create_dataset_fst_getD S L i hi, create_dataset_snd_getD S L i hi]
  refine ⟨?_, ?_, ?_⟩
  · simp; omega
  · simp; omega
  · intro k hk d
    rw [window_getD S L i k hk d, window_getD S L (i + 1) k hk d]
    exact ⟨rfl, rfl⟩

/-- Witness for C1 at S = [10, 20, 30, 40, 50], L = 2. -/
theorem create_dataset_window_spec_witness :
    (create_dataset ([10, 20, 30, 40, 50] : List Nat) 2).1.length = 3 ∧
    (create_dataset ([10, 20, 30, 40, 50] : List Nat) 2).2.getD 1 [] = [30, 40] := by
  have h := create_dataset_window_spec ([10, 20, 30, 40, 50] : List Nat) 2
    (by decide) (by decide)
  exact ⟨h.1, by decide⟩

/-- C3 counterexample: at S = [0, 1, 2] and L = 3 (so L ≥ |S|), create_dataset
returns the empty sample set; it is a total function with no error outcome, so
no configuration error is signalled before training — refuting the claim that
L ≥ |S| raises an error rather than silently yielding an empty sample set. -/
theorem create_dataset_no_error_counterexample :
    create_dataset ([0, 1, 2] : List Nat) 3 = ([], []) := by
  decide

/-- C3 amended: for L ≥ |S| the construction signals no configuration error;
it silently returns an empty feature list and an empty target list, and any
training would proceed on an empty dataset. -/
theorem create_dataset_silently_empty {α : Type} (S : List α) (L : Nat)
    (h : S.length ≤ L) :
    (create_dataset S L).1 = [] ∧ (create_dataset S L).2 = [] := by
  rw [create_dataset_empty_of_le S L h]
  exact ⟨rfl, rfl⟩

/-- Witness for the amended C3 at S = [4, 5], L = 2. -/
theorem create_dataset_silently_empty_witness :
    (create_dataset ([4, 5] : List Nat) 2).1 = [] ∧
    (create_dataset ([4, 5] : List Nat) 2).2 = [] :=
  create_dataset_silently_empty ([4, 5] : List Nat) 2 (by decide)

/-- C4: for L ≥ |S|, create_dataset returns an empty sequence of samples and
raises no error (it is a total function evaluating to the empty pair). -/
theorem create_dataset_empty_when_lookback_ge {α : Type} (S : List α) (L : Nat)
    (h : S.length ≤ L) : create_dataset S L = ([], []) :=
  create_dataset_empty_of_le S L h

/-- Witness for C4 at S = [0, 1, 2], L = 5. -/
theorem create_dataset_empty_when_lookback_ge_witness :
    create_dataset ([0, 1, 2] : List Nat) 5 = ([], []) :=
  create_dataset_empty_when_lookback_ge ([0, 1, 2] : List Nat) 5 (by decide)

/-- C6: the first elements of the history windows, in sample order, reproduce
S[0 : N−L]. -/
theorem histories_first_elements {α : Type} (S : List α) (L : Nat)
    (h1 : 1 ≤ L) (h2 : L < S.length) (d : α) :
    (create_dataset S L).1.map (fun w => w.getD 0 d) = S.take (S.length - L) := by
  rw [create_dataset_eq_map]
  apply List.ext_getElem?
  intro k
  by_cases hk : k < S.length - L
  · have hkN : k < S.length := by omega
    rw [List.getElem?_take, if_pos hk]
    simp only [List.getElem?_map, List.getElem?_range hk]
    rw [List.getElem?_eq_getElem hkN]
    simp only [Option.map_some', List.getD_eq_getElem?_getD]
    rw [List.getElem?_take, if_pos (show 0 < L by omega), List.getElem?_drop]
    simp [List.getElem?_eq_getElem hkN]
  · rw [List.getElem?_eq_none, List.getElem?_eq_none]
    · simpa using by omega
    · simpa using by omega

/-- Witness for C6 at S = [7, 8, 9, 10], L = 2, d = 0. -/
theorem histories_first_elements_witness :
    (create_dataset ([7, 8, 9, 10] : List Nat) 2).1.map (fun w => w.getD 0 0)
      = [7, 8] :=
  histories_first_elements ([7, 8, 9, 10] : List Nat) 2 (by decide) (by decide) 0

/-- C10: with lookback 0 no error is raised and create_dataset returns exactly
|S| sample pairs, every history and target the empty sequence. -/
theorem create_dataset_zero_lookback {α : Type} (S : List α) :
    create_dataset S 0 = (List.replicate S.length [], List.replicate S.length []) := by
  rw [create_dataset_eq_map]
  simp [List.map_const']

/-- Embedding of DataLoader(dataset, batch_size=B, shuffle=False) with the
default drop_last=False (load_forecasting.py, lines 128-131): one pass yields
the samples grouped into consecutive chunks of size B in index order, the
last chunk possibly short. -/
def chunksOf {α : Type} (B : Nat) (l : List α) : List (List α) :=
  if h : l.length = 0 ∨ B = 0 then []
  else l.take B :: chunksOf B (l.drop B)
termination_by l.length
decreasing_by
  push_neg at h
  simp only [List.length_drop]
  omega

theorem chunksOf_nil {α : Type} (B : Nat) : chunksOf B ([] : List α) = [] := by
  rw [chunksOf]
  simp

theorem chunksOf_cons {α : Type} (B : Nat) (l : List α) (hl : l ≠ [])
    (hB : B ≠ 0) : chunksOf B l = l.take B :: chunksOf B (l.drop B) := by
  rw [chunksOf]
  rw [dif_neg]
  push_neg
  exact ⟨fun h => hl (List.length_eq_zero.mp h), hB⟩

/-- Concatenating the chunks in order restores the sample list. -/
theorem chunksOf_flatten {α : Type} (B : Nat) (hB : 0 < B) (l : List α) :
    (chunksOf B l).flatten = l := by
  by_cases hl : l = []
  · subst hl
    simp [chunksOf_nil]
  · rw [chunksOf_cons B l hl (by omega)]
    rw [List.flatten_cons, chunksOf_flatten B hB (l.drop B)]
    exact List.take_append_drop B l
termination_by l.length
decreasing_by
  have hlp : 0 < l.length := List.length_pos.mpr hl
  simp only [List.length_drop]
  omega

/-- The number of chunks is the ceiling of M / B. -/
theorem chunksOf_length {α : Type} (B : Nat) (hB : 0 < B) (l : List α) :
    (chunksOf B l).length = (l.length + B - 1) / B := by
  by_cases hl : l = []
  · subst hl
    simp [chunksOf_nil, Nat.div_eq_of_lt (show B - 1 < B by omega)]
  · rw [chunksOf_cons B l hl (by omega)]
    rw [List.length_cons, chunksOf_length B hB (l.drop B), List.length_drop]
    have hlp : 0 < l.length := List.length_pos.mpr hl
    by_cases hBM : B ≤ l.length
    · have h1 : l.length - B + B - 1 = l.length - 1 := by omega
      have h2 : l.length + B - 1 = (l.length - 1) + B := by omega
      rw [h1, h2, Nat.add_div_right _ hB]
    · have h1 : l.length - B = 0 := by omega
      have h2 : (l.length + B - 1) / B = 1 :=
        Nat.div_eq_of_lt_le (by omega) (by omega)
      rw [h1, Nat.div_eq_of_lt (show 0 + B - 1 < B by omega), h2]
termination_by l.length
decreasing_by
  have hlp : 0 < l.length := List.length_pos.mpr hl
  simp only [List.length_drop]
  omega

/-- The chunk sizes are ⌊M/B⌋ copies of B followed by M mod B when nonzero. -/
theorem chunksOf_map_length {α : Type} (B : Nat) (hB : 0 < B) (l : List α) :
    (chunksOf B l).map List.length
      = List.replicate (l.length / B) B
        ++ (if l.length % B = 0 then [] else [l.length % B]) := by
  by_cases hl : l = []
  · subst hl
    simp [chunksOf_nil]
  · rw [chunksOf_cons B l hl (by omega)]
    rw [List.map_cons, chunksOf_map_length B hB (l.drop B), List.length_drop,
      List.length_take]
    have hlp : 0 < l.length := List.length_pos.mpr hl
    by_cases hBM : B ≤ l.length
    · have hmin : min B l.length = B := by omega
      have hadd : l.length - B + B = l.length := by omega
      have hdiv : l.length / B = (l.length - B) / B + 1 := by
        conv_lhs => rw [← hadd]
        rw [Nat.add_div_right _ hB]
      have hmod : (l.length - B) % B = l.length % B := by
        conv_rhs => rw [← hadd]
        rw [Nat.add_mod_right]
      rw [hmin, hdiv, hmod, List.replicate_succ, List.cons_append]
    · have hmin : min B l.length = l.length := by omega
      have hdrop : l.length - B = 0 := by omega
      have hdiv : l.length / B = 0 := Nat.div_eq_of_lt (by omega)
      have hmod : l.length % B = l.length := Nat.mod_eq_of_lt (by omega)
      rw [hmin, hdrop, hdiv, hmod]
      have hne : l.length ≠ 0 := by omega
      simp [hne, chunksOf_nil]
termination_by l.length
decreasing_by
  have hlp : 0 < l.length := List.length_pos.mpr hl
  simp only [List.length_drop]
  omega

/-- C5: with shuffle disabled, one pass over batch size B > 0 and M samples
yields exactly ⌈M/B⌉ batches (here written (M + B − 1) / B); the first ⌊M/B⌋
batches have size B, a final short batch of size M mod B exists exactly when
B does not divide M, and the concatenation of the batches in order is the
sample sequence in original index order. The batch source is a pure function
of the sample list, so every epoch yields the identical batches. -/
theorem dataloader_batching {α : Type} (B : Nat) (l : List α) (hB : 0 < B) :
    (chunksOf B l).length = (l.length + B - 1) / B ∧
    (chunksOf B l).map List.length
      = List.replicate (l.length / B) B
        ++ (if l.length % B = 0 then [] else [l.length % B]) ∧
    (chunksOf B l).flatten = l :=
  ⟨chunksOf_length B hB l, chunksOf_map_length B hB l, chunksOf_flatten B hB l⟩

/-- Witness for C5 at B = 2 over five samples. -/
theorem dataloader_batching_witness :
    (chunksOf 2 ([10, 11, 12, 13, 14] : List Nat)).length = 3 ∧
    (chunksOf 2 ([10, 11, 12, 13, 14] : List Nat)).map List.length = [2, 2, 1] ∧
    (chunksOf 2 ([10, 11, 12, 13, 14] : List Nat)).flatten
      = [10, 11, 12, 13, 14] := by
  have h := dataloader_batching 2 ([10, 11, 12, 13, 14] : List Nat) (by decide)
  refine ⟨h.1, ?_, h.2.2⟩
  rw [h.2.1]
  decide

/-- Embedding of the UCIElectricityDataset wrapper (load_forecasting.py,
lines 102-122): stored feature and target window lists plus the two optional
transforms. -/
structure UCIElectricityDataset (α : Type) where
  features : List (List α)
  target : List (List α)
  transform : Option (List α → List α)
  target_transform : Option (List α → List α)

/-- Embedding of __len__: the number of stored feature windows. -/
def UCIElectricityDataset.len {α : Type} (d : UCIElectricityDataset α) : Nat :=
  d.features.length

/-- Tensor.unsqueeze(1) on a length-L vector: shape [L] becomes [L, 1], each
scalar becoming a singleton row. -/
def unsqueeze1 {α : Type} (l : List α) : List (List α) :=
  l.map (fun x => [x])

/-- Embedding of __getitem__: look up the feature and target windows at idx,
apply the transforms when configured, and return both with unsqueeze(1)
applied (the torch.Tensor conversion leaves the values unchanged). -/
def UCIElectricityDataset.getitem {α : Type} (d : UCIElectricityDataset α)
    (idx : Nat) : List (List α) × List (List α) :=
  let features := d.features.getD idx []
  let target := d.target.getD idx []
  let features := match d.transform with
    | some t => t features
    | none => features
  let target := match d.target_transform with
    | some t => t target
    | none => target
  (unsqueeze1 features, unsqueeze1 target)

theorem unsqueeze1_length {α : Type} (l : List α) :
    (unsqueeze1 l).length = l.length := by
  simp [unsqueeze1]

theorem unsqueeze1_flatten {α : Type} (l : List α) :
    (unsqueeze1 l).flatten = l := by
  induction l with
  | nil => rfl
  | cons x xs ih => simp [unsqueeze1] at ih ⊢; exact ih

/-- C7: with no transforms configured, retrieving sample idx returns the
stored (history, target) pair with values unchanged, each reshaped from a
length-L sequence to shape [L, 1]: the result has L rows, every row is a
singleton, and flattening the rows restores the stored window exactly. -/
theorem getitem_unsqueezes_stored_pair {α : Type} (d : UCIElectricityDataset α)
    (idx : Nat) (ht : d.transform = none) (htt : d.target_transform = none)
    (hidx : idx < d.len) :
    (d.getitem idx).1.length = (d.features.getD idx []).length ∧
    (d.getitem idx).2.length = (d.target.getD idx []).length ∧
    (∀ r ∈ (d.getitem idx).1, r.length = 1) ∧
    (∀ r ∈ (d.getitem idx).2, r.length = 1) ∧
    (d.getitem idx).1.flatten = d.features.getD idx [] ∧
    (d.getitem idx).2.flatten = d.target.getD idx [] := by
  unfold UCIElectricityDataset.getitem
  rw [ht, htt]
  refine ⟨unsqueeze1_length _, unsqueeze1_length _, ?_, ?_,
    unsqueeze1_flatten _, unsqueeze1_flatten _⟩
  · intro r hr
    simp [unsqueeze1] at hr
    obtain ⟨x, _, hx⟩ := hr
    rw [← hx]
    rfl
  · intro r hr
    simp [unsqueeze1] at hr
    obtain ⟨x, _, hx⟩ := hr
    rw [← hx]
    rfl

/-- Witness for C7 on a two-sample dataset with no transforms, at idx = 1. -/
theorem getitem_unsqueezes_stored_pair_witness :
    (UCIElectricityDataset.getitem
      ⟨[[1, 2], [3, 4]], [[2, 3], [4, 5]], none, none⟩ 1).1.flatten
      = ([3, 4] : List Nat) := by
  have h := getitem_unsqueezes_stored_pair
    (⟨[[1, 2], [3, 4]], [[2, 3], [4, 5]], none, none⟩ :
      UCIElectricityDataset Nat) 1 rfl rfl (by decide)
  rw [h.2.2.2.2.1]
  decide

/-- Elementwise absolute errors of one validation batch, the numpy expression
np.abs(y_val_batch - y_pred_val) (line 232); its element count is the
error_abs.size added to sum_len. A batch is modelled as the pair
(flattened predictions, flattened targets) over exact rationals. -/
def batchAbsErrors (target preds : List ℚ) : List ℚ :=
  List.zipWith (fun t p => |t - p|) target preds

/-- The validation accumulation (lines 220-234): starting from
sum_error = 0 and sum_len = 0, each batch adds the sum of its absolute
errors to sum_error and their count to sum_len. -/
def valAccum (batches : List (List ℚ × List ℚ)) : ℚ × Nat :=
  batches.foldl
    (fun acc b =>
      (acc.1 + (batchAbsErrors b.2 b.1).sum,
       acc.2 + (batchAbsErrors b.2 b.1).length))
    (0, 0)

/-- mae_val = sum_error / sum_len, divided once after the pass (line 237). -/
def mae_val (batches : List (List ℚ × List ℚ)) : ℚ :=
  (valAccum batches).1 / ((valAccum batches).2 : ℚ)

/-- Modelled from the spec words, for comparison: the elementwise mean
absolute error over the concatenation of all batches. -/
def concatMAE (batches : List (List ℚ × List ℚ)) : ℚ :=
  (batchAbsErrors (batches.map Prod.snd).flatten (batches.map Prod.fst).flatten).sum
    / ((batchAbsErrors (batches.map Prod.snd).flatten
          (batches.map Prod.fst).flatten).length : ℚ)

/-- Modelled from the spec words, for comparison: the unweighted mean of the
per-batch MAEs. -/
def meanOfBatchMAEs (batches : List (List ℚ × List ℚ)) : ℚ :=
  (batches.map
      (fun b => (batchAbsErrors b.2 b.1).sum / ((batchAbsErrors b.2 b.1).length : ℚ))).sum
    / (batches.length : ℚ)

/-- A synthetic validation run with two batches of unequal sizes 1 and 3. -/
def unequalBatchesExample : List (List ℚ × List ℚ) :=
  [([0], [1]), ([0, 0, 0], [0, 0, 0])]

/-- Folding componentwise additions over a list totals the two maps. -/
theorem foldl_add_pair {α : Type} (e : α → ℚ) (n : α → Nat) (l : List α)
    (x : ℚ) (y : Nat) :
    l.foldl (fun acc b => (acc.1 + e b, acc.2 + n b)) (x, y)
      = (x + (l.map e).sum, y + (l.map n).sum) := by
  induction l generalizing x y with
  | nil => simp
  | cons b bs ih => simp [ih, add_assoc]

theorem valAccum_eq (batches : List (List ℚ × List ℚ)) :
    valAccum batches
      = ((batches.map (fun b => (batchAbsErrors b.2 b.1).sum)).sum,
         (batches.map (fun b => (batchAbsErrors b.2 b.1).length)).sum) := by
  unfold valAccum
  rw [foldl_add_pair]
  simp

/-- When every batch has as many predictions as targets, zipping the two
concatenations equals concatenating the per-batch zips. -/
theorem batchAbsErrors_flatten (batches : List (List ℚ × List ℚ))
    (h : ∀ b ∈ batches, b.1.length = b.2.length) :
    batchAbsErrors (batches.map Prod.snd).flatten (batches.map Prod.fst).flatten
      = (batches.map (fun b => batchAbsErrors b.2 b.1)).flatten := by
  induction batches with
  | nil => rfl
  | cons b bs ih =>
    simp only [List.map_cons, List.flatten_cons]
    unfold batchAbsErrors
    rw [List.zipWith_append _ _ _ _ _ ((h b (by simp)).symm)]
    have ih2 := ih (fun x hx => h x (by simp [hx]))
    unfold batchAbsErrors at ih2
    rw [ih2]

/-- C2: the accumulate-then-divide validation MAE equals the elementwise mean
absolute error over the concatenation of all batches (whenever predictions
and targets agree in size per batch), and on the synthetic two-batch example
with sizes 1 and 3 it differs from the unweighted mean of per-batch MAEs. -/
theorem validation_mae_is_dataset_mean (batches : List (List ℚ × List ℚ))
    (h : ∀ b ∈ batches, b.1.length = b.2.length) :
    mae_val batches = concatMAE batches ∧
    mae_val unequalBatchesExample ≠ meanOfBatchMAEs unequalBatchesExample := by
  constructor
  · unfold mae_val concatMAE
    rw [valAccum_eq, batchAbsErrors_flatten batches h]
    rw [List.sum_flatten, List.length_flatten]
    simp only [List.map_map]
    push_cast
    rfl
  · unfold mae_val meanOfBatchMAEs valAccum unequalBatchesExample batchAbsErrors
    norm_num

/-- Witness for C2 on a single equal-sized batch. -/
theorem validation_mae_is_dataset_mean_witness :
    mae_val [(([1] : List ℚ), ([2] : List ℚ))]
      = concatMAE [(([1] : List ℚ), ([2] : List ℚ))] :=
  (validation_mae_is_dataset_mean [([1], [2])] (by simp)).1

/-- The two per-epoch modes of the training loop. -/
inductive Phase where
  | training : Phase
  | evaluating : Phase
deriving DecidableEq

/-- The phases executed in epoch number e (lines 195-238): model.train() and
the full training pass come first, and the validation block runs exactly when
epoch % EVAL_PERIOD == EVAL_PERIOD - 1. -/
def epochPhases (evalPeriod epoch : Nat) : List Phase :=
  Phase.training ::
    (if epoch % evalPeriod = evalPeriod - 1 then [Phase.evaluating] else [])

/-- The whole run: for epoch in range(N_EPOCHS), the phases of that epoch in
order, each tagged with its epoch number; the loop body is the same every
epoch and the loop ends after the fixed range. -/
def trainingRun (nEpochs evalPeriod : Nat) : List (Nat × Phase) :=
  (List.range nEpochs).flatMap
    (fun e => (epochPhases evalPeriod e).map (fun p => (e, p)))

theorem mem_trainingRun (N K e : Nat) (p : Phase) :
    (e, p) ∈ trainingRun N K ↔ e < N ∧ p ∈ epochPhases K e := by
  unfold trainingRun
  simp only [List.mem_flatMap, List.mem_map, List.mem_range, Prod.mk.injEq]
  constructor
  · rintro ⟨a, ha, q, hq, rfl, rfl⟩
    exact ⟨ha, hq⟩
  · rintro ⟨he, hp⟩
    exact ⟨e, he, p, hp, rfl, rfl⟩

theorem evaluating_mem_epochPhases (K e : Nat) :
    Phase.evaluating ∈ epochPhases K e ↔ e % K = K - 1 := by
  unfold epochPhases
  by_cases hc : e % K = K - 1 <;> simp [hc]

/-- C8: the loop runs exactly epochs 0 .. N−1 and then ends; each epoch
begins with the training phase; the evaluating phase occurs in epoch e
exactly when e mod K = K − 1; and every entry of the run is one of the two
phases Training and Evaluating. -/
theorem training_loop_state_machine (N K : Nat) :
    (∀ e, (e, Phase.training) ∈ trainingRun N K ↔ e < N) ∧
    (∀ e, (e, Phase.evaluating) ∈ trainingRun N K ↔ e < N ∧ e % K = K - 1) ∧
    (∀ e, (epochPhases K e).head? = some Phase.training) ∧
    (∀ x ∈ trainingRun N K, x.2 = Phase.training ∨ x.2 = Phase.evaluating) := by
  refine ⟨?_, ?_, fun e => rfl, ?_⟩
  · intro e
    rw [mem_trainingRun]
    unfold epochPhases
    simp
  · intro e
    rw [mem_trainingRun, evaluating_mem_epochPhases]
  · rintro ⟨e, p⟩ _
    cases p
    · exact Or.inl rfl
    · exact Or.inr rfl

/-- Witness for C8 at N_EPOCHS = 7, EVAL_PERIOD = 5: epoch 3 trains, epoch 4
additionally evaluates, epoch 3 does not evaluate. -/
theorem training_loop_state_machine_witness :
    (3, Phase.training) ∈ trainingRun 7 5 ∧
    (4, Phase.evaluating) ∈ trainingRun 7 5 ∧
    ¬((3, Phase.evaluating) ∈ trainingRun 7 5) := by
  have h := training_loop_state_machine 7 5
  refine ⟨(h.1 3).mpr (by decide), (h.2.1 4).mpr (by decide), ?_⟩
  intro hmem
  have := (h.2.1 3).mp hmem
  omega

/-- One validation pass of the plotting collector (lines 222-235): last_preds
starts as the empty list; each batch appends, for each of its samples in
order, the model prediction at the final timestep of that sample
(y_pred_val[:, -1, :]). The model is represented per sample as a function
from the history window to its per-timestep prediction sequence, and the
final timestep is the last entry of that sequence. -/
def lastPredsRun (B : Nat) (model : List ℚ → List ℚ)
    (samples : List (List ℚ)) : List ℚ :=
  (chunksOf B samples).foldl
    (fun acc batch => acc ++ batch.map (fun s => (model s).getLastD 0)) []

/-- Folding list appends over a list accumulates the flattened map. -/
theorem foldl_append_flatten {α β : Type} (g : α → List β) (l : List α)
    (acc : List β) :
    l.foldl (fun a b => a ++ g b) acc = acc ++ (l.map g).flatten := by
  induction l generalizing acc with
  | nil => simp
  | cons b bs ih => simp [ih]

/-- C9: after iterating all validation batches the collected list holds
exactly one scalar per validation sample, in batch order and hence sample
order — the last-timestep prediction of that sample — and its length is
|test series| − L, the number of validation samples. -/
theorem last_preds_aligned (B : Nat) (model : List ℚ → List ℚ) (S : List ℚ)
    (L : Nat) (hB : 0 < B) :
    lastPredsRun B model (create_dataset S L).1
      = (create_dataset S L).1.map (fun s => (model s).getLastD 0) ∧
    (lastPredsRun B model (create_dataset S L).1).length = S.length - L := by
  have key : ∀ samples : List (List ℚ),
      lastPredsRun B model samples
        = samples.map (fun s => (model s).getLastD 0) := by
    intro samples
    unfold lastPredsRun
    rw [foldl_append_flatten]
    rw [← List.map_flatten, chunksOf_flatten B hB samples]
    simp
  refine ⟨key _, ?_⟩
  rw [key _, List.length_map, create_dataset_fst_length]

/-- Witness for C9 at B = 2, the identity model, S = [1, 2, 3, 4], L = 1. -/
theorem last_preds_aligned_witness :
    (lastPredsRun 2 (fun s => s)
        (create_dataset ([1, 2, 3, 4] : List ℚ) 1).1).length = 3 :=
  (last_preds_aligned 2 (fun s => s) ([1, 2, 3, 4] : List ℚ) 1 (by decide)).2

end LoadForecasting
